import Mathlib

/-!
Verification of the ESPN play-by-play matchup segmenter.

Shallow embedding of `src/txt_to_json4.py` (the matchup segmenter).  Python
strings are modelled as `List Char`; Python's raised exceptions (`IndexError`
from `parts[...]`, `ValueError` from `int(...)`/unpacking) are modelled by
`Option`, with `none` meaning "an exception escapes `parse_play_by_play`".

The state of one `parse_play_by_play` call (`matchups`, `current_matchup`,
`last_time`) becomes an explicit `ParseState` threaded through a fold over the
input's lines.  Two ghost counters (`rollovers`, `discarded`) instrument the
run; they record, respectively, how many times the `duration < 0` period
correction fired and how many times `finalize_matchup` dropped a zero-event
matchup.  They influence no observable output.
-/

/-- `String.data` of a literal, for writing concrete `List Char` inputs. -/
def str (s : String) : List Char := s.data

/-- Python `needle in hay` substring test (for a nonempty needle). -/
def isPre : List Char → List Char → Bool
  | [], _ => true
  | _ :: _, [] => false
  | p :: ps, c :: cs => p == c && isPre ps cs

/-- Python `needle in hay` (substring containment, `needle` nonempty). -/
def containsSub (needle : List Char) : List Char → Bool
  | [] => needle == []
  | c :: cs => isPre needle (c :: cs) || containsSub needle cs

/-- Worker for `splitOnL`; the fuel starts at the haystack's length, which
suffices because every recursive call drops at least one character (the
separator is nonempty at every call site). -/
def splitGo (sep : List Char) : Nat → List Char → List Char → List (List Char)
  | 0, xs, acc => [acc.reverse ++ xs]
  | _ + 1, [], acc => [acc.reverse]
  | fuel + 1, c :: cs, acc =>
    if isPre sep (c :: cs) then
      acc.reverse :: splitGo sep fuel ((c :: cs).drop sep.length) []
    else
      splitGo sep fuel cs (c :: acc)

/-- Python `hay.split(sep)` for a nonempty separator: split on every
(non-overlapping, leftmost-first) occurrence, keeping empty pieces.
(Python raises on an empty separator; no call site passes one, and we
return `[xs]` there.) -/
def splitOnL (sep xs : List Char) : List (List Char) :=
  if sep = [] then [xs] else splitGo sep xs.length xs []

/-- The whitespace set of Python `str.strip()` (ASCII part, which is all the
pipeline ever produces). -/
def pySpace (c : Char) : Bool :=
  c == ' ' || c == '\t' || c == '\n' || c == '\r' || c == '\x0b' || c == '\x0c'

/-- Python `s.strip()`. -/
def stripEnds (xs : List Char) : List Char :=
  ((xs.dropWhile pySpace).reverse.dropWhile pySpace).reverse

/-- Numeric value of a digit character. -/
def dv (c : Char) : Nat := c.toNat - 48

/-- Python `int(s)` on the token chunks the segmenter feeds it: succeeds
exactly on nonempty all-digit strings (`none` models the `ValueError` path). -/
def parseNat (s : List Char) : Option Nat :=
  if s ≠ [] ∧ s.all Char.isDigit then
    some (s.foldl (fun n c => n * 10 + dv c) 0)
  else none

/-- `map(int, t.split(":"))` unpacked into two variables and combined to
seconds, as in `add_time_to_duration`; `none` models the `ValueError` raised
on anything but two integer chunks. -/
def parseClock (t : List Char) : Option Nat :=
  match splitOnL [':'] t with
  | [m, s] =>
    match parseNat m, parseNat s with
    | some a, some b => some (a * 60 + b)
    | _, _ => none
  | _ => none

/-- Python `f"{x:02}"` for `x ≤ 99` (the only call sites pass
`minutes ≤ 1` and `seconds ≤ 59`). -/
def pad2 (n : Nat) : List Char := [Nat.digitChar (n / 10), Nat.digitChar (n % 10)]

/-- Value, in tenths of a second, of a token fully matching the Python regex
`^\d{1,2}\.\d$` (`re.match` in `convert_to_mm_ss_format`); `none` when the
regex does not match. -/
def bareDecimalVal (t : List Char) : Option Nat :=
  match t with
  | [a, p, c] =>
    if a.isDigit && p == '.' && c.isDigit then some (dv a * 10 + dv c) else none
  | [a, b, p, c] =>
    if a.isDigit && b.isDigit && p == '.' && c.isDigit then
      some ((dv a * 10 + dv b) * 10 + dv c)
    else none
  | _ => none

/-- `convert_to_mm_ss_format`: a token matching `^\d{1,2}\.\d$` is read as a
float number of seconds `v = n/10` and reformatted as
`f"{int(v // 60):02}:{int(v % 60):02}"`; other tokens pass through.
With one fractional digit and at most two integer digits the float arithmetic
is exact for these floors, so `int(v // 60) = n / 600` and
`int(v % 60) = (n % 600) / 10` in exact arithmetic. -/
def convert_to_mm_ss_format (t : List Char) : List Char :=
  match bareDecimalVal t with
  | some n => pad2 (n / 600) ++ ':' :: pad2 ((n % 600) / 10)
  | none => t

/-- The alternative `\d{1,2}:\d{2}` taken with a two-digit minute field, at
the current position. -/
def altColon2 (s : List Char) : Option (List Char) :=
  match s with
  | a :: b :: c :: d :: e :: _ =>
    if a.isDigit && b.isDigit && c == ':' && d.isDigit && e.isDigit then
      some [a, b, c, d, e]
    else none
  | _ => none

/-- The alternative `\d{1,2}:\d{2}` taken with a one-digit minute field. -/
def altColon1 (s : List Char) : Option (List Char) :=
  match s with
  | a :: c :: d :: e :: _ =>
    if a.isDigit && c == ':' && d.isDigit && e.isDigit then
      some [a, c, d, e]
    else none
  | _ => none

/-- The alternative `\d{1,2}\.\d` taken with two integer digits. -/
def altDot2 (s : List Char) : Option (List Char) :=
  match s with
  | a :: b :: c :: d :: _ =>
    if a.isDigit && b.isDigit && c == '.' && d.isDigit then
      some [a, b, c, d]
    else none
  | _ => none

/-- The alternative `\d{1,2}\.\d` taken with one integer digit. -/
def altDot1 (s : List Char) : Option (List Char) :=
  match s with
  | a :: c :: d :: _ =>
    if a.isDigit && c == '.' && d.isDigit then some [a, c, d] else none
  | _ => none

/-- One attempt of the regex `(\d{1,2}:\d{2}|\d{1,2}\.\d)` at a fixed start
position: the first alternative with a greedy 1–2 digit minute field (two
digits tried before one), then the bare-decimal alternative, again greedy —
exactly the backtracking order of Python's engine. -/
def tryTimeAt (s : List Char) : Option (List Char) :=
  match altColon2 s with
  | some t => some t
  | none =>
    match altColon1 s with
    | some t => some t
    | none =>
      match altDot2 s with
      | some t => some t
      | none => altDot1 s

/-- `re.search(r"(\d{1,2}:\d{2}|\d{1,2}\.\d)", line)`: leftmost match wins. -/
def findTime : List Char → Option (List Char)
  | [] => none
  | c :: cs =>
    match tryTimeAt (c :: cs) with
    | some t => some t
    | none => findTime cs

/-- The literal substitution marker tested with Python `in`. -/
def subMarker : List Char := str "enters the game for"

/-- The separator `" enters the game for "` used by the `split` call. -/
def subSplitSep : List Char := str " enters the game for "

/-- The separator `" - "` used to strip the clock prefix. -/
def dashSep : List Char := str " - "

/-- One matchup record (`players.team1`, `players.team2`, `events`,
`matchup_duration`). -/
structure Matchup where
  team1 : List (List Char)
  team2 : List (List Char)
  events : List (List Char)
  matchup_duration : Int
  deriving DecidableEq, Repr

/-- The mutable state of one `parse_play_by_play` call, plus the two ghost
counters described in the file header. -/
structure ParseState where
  matchups : List Matchup
  current : Matchup
  last_time : List Char
  rollovers : Nat
  discarded : Nat
  deriving DecidableEq, Repr

/-- `team1_lineup` from the source. -/
def team1_lineup : List (List Char) :=
  [str "Luka Doncic", str "Kyrie Irving", str "Daniel Gafford",
   str "P.J. Washington", str "Derrick Jones Jr."]

/-- `team2_lineup` from the source. -/
def team2_lineup : List (List Char) :=
  [str "Jayson Tatum", str "Jaylen Brown", str "Jrue Holiday",
   str "Derrick White", str "Al Horford"]

/-- The initial state: starting lineups, empty events, duration 0,
`last_time = "12:00"`. -/
def st0 : ParseState :=
  { matchups := []
    current :=
      { team1 := team1_lineup, team2 := team2_lineup
        events := [], matchup_duration := 0 }
    last_time := str "12:00"
    rollovers := 0
    discarded := 0 }

/-- `finalize_matchup`: append a deep copy of the current matchup when its
events list is nonempty.  The ghost `discarded` counter records the other
branch (current matchup dropped). -/
def finalize_matchup (st : ParseState) : ParseState :=
  if st.current.events = [] then { st with discarded := st.discarded + 1 }
  else { st with matchups := st.matchups ++ [st.current] }

/-- `add_time_to_duration`: normalize the token, parse `last_time` and the
normalized token as `mm:ss`, add the (possibly +720-corrected) delta to the
open matchup, and store the normalized token as the new `last_time`.  The
ghost `rollovers` counter records when the correction fired. -/
def add_time_to_duration (tok : List Char) (st : ParseState) : Option ParseState :=
  let cur := convert_to_mm_ss_format tok
  match parseClock st.last_time, parseClock cur with
  | some lastS, some curS =>
    let d : Int := (lastS : Int) - (curS : Int)
    let corrected : Int := if d < 0 then d + 720 else d
    some { st with
      current := { st.current with
        matchup_duration := st.current.matchup_duration + corrected }
      last_time := cur
      rollovers := st.rollovers + (if d < 0 then 1 else 0) }
  | _, _ => none

/-- `entering_player`/`exiting_player` extraction from a substitution line:
`parts = line.split(" enters the game for ")`,
`entering = parts[0].split(" - ")[1]`, `exiting = parts[1]`.
`none` models the `IndexError` paths. -/
def subNames (line : List Char) : Option (List Char × List Char) :=
  let parts := splitOnL subSplitSep line
  match parts.head? with
  | none => none
  | some p0 =>
    match (splitOnL dashSep p0).get? 1 with
    | none => none
    | some entering =>
      match parts.get? 1 with
      | none => none
      | some exiting => some (entering, exiting)

/-- The `for team in ["team1", "team2"] ... break` roster update: remove the
first occurrence of the exiting player from the first side containing it and
append the entering player there; a silent no-op when neither side contains
the exiting player. -/
def subUpdate (entering exiting : List Char) (t1 t2 : List (List Char)) :
    List (List Char) × List (List Char) :=
  if t1.contains exiting then (t1.erase exiting ++ [entering], t2)
  else if t2.contains exiting then (t1, t2.erase exiting ++ [entering])
  else (t1, t2)

/-- The clock part of the loop body (source lines 80–83): search for a time
token; when one is present run `add_time_to_duration`, otherwise leave the
state alone. -/
def timeStep (st : ParseState) (line : List Char) : Option ParseState :=
  match findTime line with
  | some tok => add_time_to_duration tok st
  | none => some st

/-- The body of the `for i, line in enumerate(lines)` loop: clock update when
a time token is found, then substitution handling (finalize, open a new
matchup seeded with the line, update rosters), then unconditional event
accumulation. -/
def processLine (st : ParseState) (line : List Char) : Option ParseState :=
  match timeStep st line with
  | none => none
  | some st1 =>
    match (if containsSub subMarker line then
             match subNames line with
             | none => none
             | some names =>
               let stf := finalize_matchup st1
               let upd := subUpdate names.1 names.2 stf.current.team1 stf.current.team2
               some { stf with
                 current :=
                   { team1 := upd.1, team2 := upd.2
                     events := [line], matchup_duration := 0 } }
           else some st1) with
    | none => none
    | some st2 =>
      some { st2 with
        current := { st2.current with events := st2.current.events ++ [line] } }

/-- The lines the segmenter iterates over:
`play_by_play_text.strip().split("\n")`. -/
def linesOf (input : List Char) : List (List Char) :=
  splitOnL ['\n'] (stripEnds input)

/-- The `for` loop of `parse_play_by_play`: process the lines in order,
stopping (with `none`) as soon as a step raises. -/
def runLines (st : ParseState) : List (List Char) → Option ParseState
  | [] => some st
  | l :: rest =>
    match processLine st l with
    | none => none
    | some st1 => runLines st1 rest

/-- The whole `parse_play_by_play` run, returning the final state (including
the ghost counters); `none` models an exception escaping the call. -/
def runParse (input : List Char) : Option ParseState :=
  match runLines st0 (linesOf input) with
  | none => none
  | some stF => some (finalize_matchup stF)

/-- `parse_play_by_play`: the returned matchup list, or `none` when an
exception escapes. -/
def parse_play_by_play (input : List Char) : Option (List Matchup) :=
  (runParse input).map (·.matchups)

/-- Ghost observation: how many zero-event matchups the run discarded. -/
def discardsOf (input : List Char) : Option Nat :=
  (runParse input).map (·.discarded)

/-- Sum of the emitted durations. -/
def sumDur (ms : List Matchup) : Int :=
  (ms.map (·.matchup_duration)).sum

/-- The number of periods the run's clock evidence shows: the first period
plus one per backwards clock jump (each `+720` correction marks one period
boundary). -/
def periodsRepresented (st : ParseState) : Nat := 1 + st.rollovers

/-- A line's time token (when there is one) denotes at most `12:00` — the
well-formedness of a period game clock, implicit in the spec's `mm:ss`
convention. -/
def timeBounded (l : List Char) : Bool :=
  match findTime l with
  | none => true
  | some tok =>
    match parseClock (convert_to_mm_ss_format tok) with
    | none => true
    | some v => decide (v ≤ 720)

/-- The roster-size invariant carried through the loop. -/
def Inv5 (s : ParseState) : Prop :=
  (∀ m ∈ s.matchups, m.team1.length = 5 ∧ m.team2.length = 5) ∧
    s.current.team1.length = 5 ∧ s.current.team2.length = 5

/-- The duration-accounting invariant carried through the loop: the open
duration is nonnegative, the stored clock parses to at most `720` seconds,
and emitted-plus-open duration plus the remaining clock never exceeds the
elapsed-clock budget. -/
def Inv9 (s : ParseState) : Prop :=
  0 ≤ s.current.matchup_duration ∧
    ∃ L, parseClock s.last_time = some L ∧ L ≤ 720 ∧
      sumDur s.matchups + s.current.matchup_duration + (L : Int) ≤
        720 * (1 + (s.rollovers : Int))

/-- A play-by-play consisting of a single substitution line. -/
def subOnlyInput : List Char :=
  str "9:15 - Luka Doncic enters the game for Kyrie Irving"

/-- The end-to-end scenario input from the spec. -/
def scenarioInput : List Char :=
  str "12:00 - Tip-off\n10:30 - Luka Doncic misses 3-pt shot\n9:15 - Luka Doncic enters the game for Kyrie Irving\n8:00 - Jayson Tatum makes 2-pt shot"

/-- First matchup of the end-to-end scenario. -/
def scenario_m1 : Matchup :=
  { team1 := team1_lineup, team2 := team2_lineup
    events := [str "12:00 - Tip-off", str "10:30 - Luka Doncic misses 3-pt shot"]
    matchup_duration := 165 }

/-- Second matchup of the end-to-end scenario (note the duplicated
substitution line and the duplicated "Luka Doncic"). -/
def scenario_m2 : Matchup :=
  { team1 := [str "Luka Doncic", str "Daniel Gafford", str "P.J. Washington",
              str "Derrick Jones Jr.", str "Luka Doncic"]
    team2 := team2_lineup
    events := [str "9:15 - Luka Doncic enters the game for Kyrie Irving",
               str "9:15 - Luka Doncic enters the game for Kyrie Irving",
               str "8:00 - Jayson Tatum makes 2-pt shot"]
    matchup_duration := 75 }

/-- The matchup produced by the empty input: one empty-string event. -/
def emptyInputMatchup : Matchup :=
  { team1 := team1_lineup, team2 := team2_lineup
    events := [[]], matchup_duration := 0 }

/-- A well-formed substitution line over unknown players (first C1 line). -/
def c1w_l1 : List Char := str "A - B enters the game for C"

/-- A well-formed substitution line over unknown players (second C1 line). -/
def c1w_l2 : List Char := str "D - E enters the game for F"

/-- The state after processing `c1w_l1` from the start state. -/
def c1w_st1 : ParseState :=
  { matchups := []
    current :=
      { team1 := team1_lineup, team2 := team2_lineup
        events := [c1w_l1, c1w_l1], matchup_duration := 0 }
    last_time := str "12:00", rollovers := 0, discarded := 1 }

/-- The state after then processing `c1w_l2`. -/
def c1w_st2 : ParseState :=
  { matchups :=
      [{ team1 := team1_lineup, team2 := team2_lineup
         events := [c1w_l1, c1w_l1], matchup_duration := 0 }]
    current :=
      { team1 := team1_lineup, team2 := team2_lineup
        events := [c1w_l2, c1w_l2], matchup_duration := 0 }
    last_time := str "12:00", rollovers := 0, discarded := 1 }

/-- A start state whose clock reads `0:05`. -/
def c3w_st0 : ParseState := { st0 with last_time := str "0:05" }

/-- The state `add_time_to_duration "11:58"` produces from `c3w_st0`. -/
def c3w_st1 : ParseState :=
  { matchups := []
    current :=
      { team1 := team1_lineup, team2 := team2_lineup
        events := [], matchup_duration := 7 }
    last_time := str "11:58", rollovers := 1, discarded := 0 }

/-- The final state of a run on the single line `"hello"`. -/
def c6w_st : ParseState :=
  { matchups :=
      [{ team1 := team1_lineup, team2 := team2_lineup
         events := [str "hello"], matchup_duration := 0 }]
    current :=
      { team1 := team1_lineup, team2 := team2_lineup
        events := [str "hello"], matchup_duration := 0 }
    last_time := str "12:00", rollovers := 0, discarded := 0 }

/-- A substitution line whose exiting player is on neither roster. -/
def c8w_l : List Char := str "5:00 - Bob Smith enters the game for Nobody"

/-- The state one step on `c8w_l` produces from the start state. -/
def c8w_st : ParseState :=
  { matchups := []
    current :=
      { team1 := team1_lineup, team2 := team2_lineup
        events := [c8w_l, c8w_l], matchup_duration := 0 }
    last_time := str "5:00", rollovers := 0, discarded := 1 }

/-- A two-line input whose clock crosses one period boundary. -/
def c9w_input : List Char := str "0:05 - foo\n11:58 - bar"

/-- The final state of the run on `c9w_input`. -/
def c9w_st : ParseState :=
  { matchups :=
      [{ team1 := team1_lineup, team2 := team2_lineup
         events := [str "0:05 - foo", str "11:58 - bar"]
         matchup_duration := 722 }]
    current :=
      { team1 := team1_lineup, team2 := team2_lineup
        events := [str "0:05 - foo", str "11:58 - bar"]
        matchup_duration := 722 }
    last_time := str "11:58", rollovers := 1, discarded := 0 }

/-- The output for the one-line input `"x"`. -/
def c10w_ms : List Matchup :=
  [{ team1 := team1_lineup, team2 := team2_lineup
     events := [str "x"], matchup_duration := 0 }]

/-! ## Structural lemmas about one parser step -/

/-- `finalize_matchup` emits the open matchup when it has events. -/
theorem finalize_of_ne (st : ParseState) (h : ¬ st.current.events = []) :
    finalize_matchup st = { st with matchups := st.matchups ++ [st.current] } := by
  simp [finalize_matchup, h]

/-- `finalize_matchup` discards the open matchup when it has no events. -/
theorem finalize_of_nil (st : ParseState) (h : st.current.events = []) :
    finalize_matchup st = { st with discarded := st.discarded + 1 } := by
  simp [finalize_matchup, h]

/-- Characterization of a successful `add_time_to_duration` call. -/
theorem add_time_eq (tok : List Char) (st st' : ParseState)
    (h : add_time_to_duration tok st = some st') :
    ∃ L C, parseClock st.last_time = some L ∧
      parseClock (convert_to_mm_ss_format tok) = some C ∧
      st' = { st with
        current := { st.current with
          matchup_duration := st.current.matchup_duration +
            (if (L : Int) - (C : Int) < 0 then (L : Int) - (C : Int) + 720
             else (L : Int) - (C : Int)) }
        last_time := convert_to_mm_ss_format tok
        rollovers := st.rollovers + (if (L : Int) - (C : Int) < 0 then 1 else 0) } := by
  unfold add_time_to_duration at h
  cases hL : parseClock st.last_time <;>
    cases hC : parseClock (convert_to_mm_ss_format tok) <;>
      simp only [hL, hC] at h <;> try exact Option.noConfusion h
  injection h with h
  exact ⟨_, _, rfl, rfl, h.symm⟩

/-- A successful time step changes nothing besides the open matchup's
duration, `last_time` and the ghost rollover counter. -/
theorem timeStep_frame (st st1 : ParseState) (l : List Char)
    (h : timeStep st l = some st1) :
    st1.matchups = st.matchups ∧ st1.discarded = st.discarded ∧
      st1.current.events = st.current.events ∧
      st1.current.team1 = st.current.team1 ∧
      st1.current.team2 = st.current.team2 := by
  unfold timeStep at h
  cases hf : findTime l with
  | none => rw [hf] at h; cases h; exact ⟨rfl, rfl, rfl, rfl, rfl⟩
  | some tok =>
    rw [hf] at h
    obtain ⟨L, C, -, -, hst⟩ := add_time_eq tok st st1 h
    subst hst
    exact ⟨rfl, rfl, rfl, rfl, rfl⟩

/-- Destructor for `processLine` on a non-substitution line. -/
theorem processLine_no_marker (st : ParseState) (l : List Char) (st' : ParseState)
    (hm : containsSub subMarker l = false)
    (h : processLine st l = some st') :
    ∃ st1, timeStep st l = some st1 ∧
      st' = { st1 with
        current := { st1.current with events := st1.current.events ++ [l] } } := by
  unfold processLine at h
  cases h1 : timeStep st l with
  | none => rw [h1] at h; cases h
  | some st1 =>
    rw [h1] at h
    simp only [hm, Bool.false_eq_true, if_neg] at h
    cases h
    exact ⟨st1, rfl, rfl⟩

/-- Destructor for `processLine` on a substitution line: the state after the
time step is finalized, and the new open matchup carries the updated rosters,
the line twice (seed plus unconditional append) and duration `0`. -/
theorem processLine_marker (st : ParseState) (l : List Char) (st' : ParseState)
    (hm : containsSub subMarker l = true)
    (h : processLine st l = some st') :
    ∃ st1 en ex, timeStep st l = some st1 ∧ subNames l = some (en, ex) ∧
      st' = { finalize_matchup st1 with
        current :=
          { team1 := (subUpdate en ex (finalize_matchup st1).current.team1
              (finalize_matchup st1).current.team2).1
            team2 := (subUpdate en ex (finalize_matchup st1).current.team1
              (finalize_matchup st1).current.team2).2
            events := [l, l]
            matchup_duration := 0 } } := by
  unfold processLine at h
  cases h1 : timeStep st l with
  | none => rw [h1] at h; cases h
  | some st1 =>
    rw [h1] at h
    simp only [hm, if_pos] at h
    cases h2 : subNames l with
    | none => rw [h2] at h; simp at h
    | some names =>
      rw [h2] at h
      simp only [Option.some.injEq] at h
      refine ⟨st1, names.1, names.2, rfl, rfl, ?_⟩
      cases h
      rfl

/-- `processLine` succeeds as soon as the time step succeeds and, on a
substitution line, the name extraction succeeds. -/
theorem processLine_some (st st1 : ParseState) (l : List Char)
    (h1 : timeStep st l = some st1)
    (h2 : containsSub subMarker l = true → (subNames l).isSome) :
    ∃ st', processLine st l = some st' := by
  cases hm : containsSub subMarker l with
  | false =>
    refine ⟨{ st1 with
      current := { st1.current with events := st1.current.events ++ [l] } }, ?_⟩
    unfold processLine
    rw [h1]
    simp [hm]
  | true =>
    obtain ⟨names, hn⟩ := Option.isSome_iff_exists.mp (h2 hm)
    refine ⟨{ finalize_matchup st1 with
      current :=
        { team1 := (subUpdate names.1 names.2 (finalize_matchup st1).current.team1
            (finalize_matchup st1).current.team2).1
          team2 := (subUpdate names.1 names.2 (finalize_matchup st1).current.team1
            (finalize_matchup st1).current.team2).2
          events := [l, l]
          matchup_duration := 0 } }, ?_⟩
    unfold processLine
    rw [h1]
    simp only [hm, if_pos, hn]
    rfl

/-- After any successful `processLine`, the open matchup's events list is the
previous list (or the fresh seed on a substitution line) with the line
appended; in particular it is nonempty. -/
theorem processLine_events (st : ParseState) (l : List Char) (st' : ParseState)
    (h : processLine st l = some st') :
    st'.current.events =
      (if containsSub subMarker l then [l] else st.current.events) ++ [l] := by
  cases hm : containsSub subMarker l with
  | false =>
    obtain ⟨st1, h1, hst⟩ := processLine_no_marker st l st' hm h
    obtain ⟨-, -, he, -, -⟩ := timeStep_frame st st1 l h1
    subst hst
    simp [he]
  | true =>
    obtain ⟨st1, en, ex, h1, h2, hst⟩ := processLine_marker st l st' hm h
    subst hst
    simp

/-- The open matchup's events list is nonempty after any successful step. -/
theorem processLine_events_ne (st : ParseState) (l : List Char) (st' : ParseState)
    (h : processLine st l = some st') : ¬ st'.current.events = [] := by
  rw [processLine_events st l st' h]
  simp

/-! ## Lemmas about the fold over lines -/

/-- `splitGo` never returns the empty list of pieces. -/
theorem splitGo_ne_nil (sep : List Char) :
    ∀ (fuel : Nat) (xs acc : List Char), splitGo sep fuel xs acc ≠ [] := by
  intro fuel
  induction fuel with
  | zero => intro xs acc; simp [splitGo]
  | succ n ih =>
    intro xs acc
    cases xs with
    | nil => simp [splitGo]
    | cons c cs =>
      unfold splitGo
      split
      · simp
      · exact ih cs (c :: acc)

/-- Python `split` always yields at least one piece. -/
theorem splitOnL_ne_nil (sep xs : List Char) : splitOnL sep xs ≠ [] := by
  unfold splitOnL
  split
  · simp
  · exact splitGo_ne_nil sep xs.length xs []

/-- Invariant preservation along the loop over the input's lines. -/
theorem runLines_inv (P : ParseState → Prop) :
    ∀ (lines : List (List Char)) (st st' : ParseState),
      (∀ s l, l ∈ lines → P s → ∀ s', processLine s l = some s' → P s') →
      P st → runLines st lines = some st' → P st' := by
  intro lines
  induction lines with
  | nil =>
    intro st st' _ hP h
    cases h
    exact hP
  | cons l rest ih =>
    intro st st' hstep hP h
    unfold runLines at h
    cases h1 : processLine st l with
    | none => rw [h1] at h; cases h
    | some st1 =>
      rw [h1] at h
      exact ih st1 st'
        (fun s l2 hl2 => hstep s l2 (List.mem_cons_of_mem _ hl2))
        (hstep st l (List.mem_cons_self _ _) hP st1 h1) h

/-- The loop succeeds whenever each step succeeds from a `P`-state and
preserves `P`. -/
theorem runLines_total (P : ParseState → Prop) :
    ∀ (lines : List (List Char)) (st : ParseState),
      (∀ s l, l ∈ lines → P s → ∃ s', processLine s l = some s' ∧ P s') →
      P st → ∃ st', runLines st lines = some st' ∧ P st' := by
  intro lines
  induction lines with
  | nil =>
    intro st _ hP
    exact ⟨st, rfl, hP⟩
  | cons l rest ih =>
    intro st hstep hP
    obtain ⟨st1, h1, hP1⟩ := hstep st l (List.mem_cons_self _ _) hP
    obtain ⟨st', h2, hP2⟩ := ih st1
      (fun s l2 hl2 => hstep s l2 (List.mem_cons_of_mem _ hl2)) hP1
    refine ⟨st', ?_, hP2⟩
    unfold runLines
    rw [h1]
    exact h2

/-- After looping over at least one line, the open matchup has events. -/
theorem runLines_events_ne :
    ∀ (lines : List (List Char)) (st st' : ParseState), lines ≠ [] →
      runLines st lines = some st' → ¬ st'.current.events = [] := by
  intro lines
  induction lines with
  | nil => intro st st' hne; exact absurd rfl hne
  | cons l rest ih =>
    intro st st' _ h
    unfold runLines at h
    cases h1 : processLine st l with
    | none => rw [h1] at h; cases h
    | some st1 =>
      rw [h1] at h
      cases hr : rest with
      | nil =>
        subst hr
        cases h
        exact processLine_events_ne st l st' h1
      | cons r rs =>
        subst hr
        exact ih st1 st' (by simp) h

/-! ## Character and token lemmas -/

/-- A digit character is not `':'`. -/
theorem digit_ne_colon {c : Char} (h : c.isDigit = true) : ¬ c = ':' := by
  simp only [Char.isDigit, Bool.and_eq_true, decide_eq_true_eq] at h
  rintro rfl
  exact absurd h.2 (by decide)

/-- Bool form of `digit_ne_colon`, oriented for `isPre`. -/
theorem beq_colon_digit {c : Char} (h : c.isDigit = true) : (':' == c) = false := by
  simp only [beq_eq_false_iff_ne, ne_eq]
  intro hc
  exact digit_ne_colon h hc.symm

/-- For `d ≤ 9`, `Nat.digitChar d` is a digit character. -/
theorem digitChar_isDigit {d : Nat} (h : d ≤ 9) : (Nat.digitChar d).isDigit = true := by
  interval_cases d <;> decide

/-- For `d ≤ 9`, `dv` inverts `Nat.digitChar`. -/
theorem dv_digitChar {d : Nat} (h : d ≤ 9) : dv (Nat.digitChar d) = d := by
  interval_cases d <;> decide

/-- Splitting a five-character string with `':'` in the middle. -/
theorem splitOnL_colon5 (a b d e : Char) (ha : (':' == a) = false)
    (hb : (':' == b) = false) (hd : (':' == d) = false) (he : (':' == e) = false) :
    splitOnL [':'] [a, b, ':', d, e] = [[a, b], [d, e]] := by
  simp [splitOnL, splitGo, isPre, ha, hb, hd, he]

/-- Splitting a four-character string with `':'` in second position. -/
theorem splitOnL_colon4 (a d e : Char) (ha : (':' == a) = false)
    (hd : (':' == d) = false) (he : (':' == e) = false) :
    splitOnL [':'] [a, ':', d, e] = [[a], [d, e]] := by
  simp [splitOnL, splitGo, isPre, ha, hd, he]

/-- `parseNat` on a two-digit chunk. -/
theorem parseNat_two (a b : Char) (ha : a.isDigit = true) (hb : b.isDigit = true) :
    parseNat [a, b] = some (dv a * 10 + dv b) := by
  simp [parseNat, ha, hb]

/-- `parseNat` on a one-digit chunk. -/
theorem parseNat_one (a : Char) (ha : a.isDigit = true) :
    parseNat [a] = some (dv a) := by
  simp [parseNat, ha]

/-- `parseClock` on a `dd:dd` string of digits. -/
theorem parseClock_shape5 (a b d e : Char) (ha : a.isDigit = true)
    (hb : b.isDigit = true) (hd : d.isDigit = true) (he : e.isDigit = true) :
    parseClock [a, b, ':', d, e] =
      some ((dv a * 10 + dv b) * 60 + (dv d * 10 + dv e)) := by
  simp [parseClock,
    splitOnL_colon5 a b d e (beq_colon_digit ha) (beq_colon_digit hb)
      (beq_colon_digit hd) (beq_colon_digit he),
    parseNat_two a b ha hb, parseNat_two d e hd he]

/-- `parseClock` on a `d:dd` string of digits. -/
theorem parseClock_shape4 (a d e : Char) (ha : a.isDigit = true)
    (hd : d.isDigit = true) (he : e.isDigit = true) :
    parseClock [a, ':', d, e] = some (dv a * 60 + (dv d * 10 + dv e)) := by
  simp [parseClock,
    splitOnL_colon4 a d e (beq_colon_digit ha) (beq_colon_digit hd)
      (beq_colon_digit he),
    parseNat_one a ha, parseNat_two d e hd he]

/-- `parseClock` reads back exactly the value `convert_to_mm_ss_format`
formats for a bare-decimal token of value `n` tenths of a second: the
string denotes `n / 10` whole seconds. -/
theorem parseClock_pad (n : Nat) (hn : n ≤ 999) :
    parseClock (pad2 (n / 600) ++ ':' :: pad2 ((n % 600) / 10)) =
      some (n / 10) := by
  have h1 : n / 600 / 10 ≤ 9 := by omega
  have h2 : n / 600 % 10 ≤ 9 := by omega
  have h3 : n % 600 / 10 / 10 ≤ 9 := by omega
  have h4 : n % 600 / 10 % 10 ≤ 9 := by omega
  show parseClock [Nat.digitChar (n / 600 / 10), Nat.digitChar (n / 600 % 10), ':',
    Nat.digitChar (n % 600 / 10 / 10), Nat.digitChar (n % 600 / 10 % 10)] = some (n / 10)
  rw [parseClock_shape5 _ _ _ _ (digitChar_isDigit h1) (digitChar_isDigit h2)
    (digitChar_isDigit h3) (digitChar_isDigit h4)]
  rw [dv_digitChar h1, dv_digitChar h2, dv_digitChar h3, dv_digitChar h4]
  congr 1
  omega

/-- Digit values are at most 9. -/
theorem dv_le_nine {c : Char} (h : c.isDigit = true) : dv c ≤ 9 := by
  simp only [Char.isDigit, Bool.and_eq_true, decide_eq_true_eq] at h
  have h2 := h.2
  simp only [UInt32.le_def, BitVec.le_def] at h2
  rw [(by decide : ((57 : UInt32)).toBitVec.toNat = 57)] at h2
  unfold dv Char.toNat UInt32.toNat
  omega

/-- Characterization of the two-digit-minute colon alternative. -/
theorem altColon2_eq {s tok : List Char} (h : altColon2 s = some tok) :
    ∃ a b d e, a.isDigit = true ∧ b.isDigit = true ∧ d.isDigit = true ∧
      e.isDigit = true ∧ tok = [a, b, ':', d, e] := by
  unfold altColon2 at h
  split at h
  next a b c d e rest =>
    split at h
    next hc =>
      simp only [Bool.and_eq_true, beq_iff_eq] at hc
      cases h
      obtain ⟨⟨⟨⟨ha, hb⟩, rfl⟩, hd⟩, he⟩ := hc
      exact ⟨a, b, d, e, ha, hb, hd, he, rfl⟩
    next => cases h
  next => cases h

/-- Characterization of the one-digit-minute colon alternative. -/
theorem altColon1_eq {s tok : List Char} (h : altColon1 s = some tok) :
    ∃ a d e, a.isDigit = true ∧ d.isDigit = true ∧ e.isDigit = true ∧
      tok = [a, ':', d, e] := by
  unfold altColon1 at h
  split at h
  next a c d e rest =>
    split at h
    next hc =>
      simp only [Bool.and_eq_true, beq_iff_eq] at hc
      cases h
      obtain ⟨⟨⟨ha, rfl⟩, hd⟩, he⟩ := hc
      exact ⟨a, d, e, ha, hd, he, rfl⟩
    next => cases h
  next => cases h

/-- Characterization of the two-integer-digit bare-decimal alternative. -/
theorem altDot2_eq {s tok : List Char} (h : altDot2 s = some tok) :
    ∃ a b c, a.isDigit = true ∧ b.isDigit = true ∧ c.isDigit = true ∧
      tok = [a, b, '.', c] := by
  unfold altDot2 at h
  split at h
  next a b c d rest =>
    split at h
    next hc =>
      simp only [Bool.and_eq_true, beq_iff_eq] at hc
      cases h
      obtain ⟨⟨⟨ha, hb⟩, rfl⟩, hd⟩ := hc
      exact ⟨a, b, d, ha, hb, hd, rfl⟩
    next => cases h
  next => cases h

/-- Characterization of the one-integer-digit bare-decimal alternative. -/
theorem altDot1_eq {s tok : List Char} (h : altDot1 s = some tok) :
    ∃ a c, a.isDigit = true ∧ c.isDigit = true ∧ tok = [a, '.', c] := by
  unfold altDot1 at h
  split at h
  next a c d rest =>
    split at h
    next hc =>
      simp only [Bool.and_eq_true, beq_iff_eq] at hc
      cases h
      obtain ⟨⟨ha, rfl⟩, hd⟩ := hc
      exact ⟨a, d, ha, hd, rfl⟩
    next => cases h
  next => cases h

/-- `convert_to_mm_ss_format` passes `dd:dd` tokens through unchanged. -/
theorem convert_colon5 (a b d e : Char) :
    convert_to_mm_ss_format [a, b, ':', d, e] = [a, b, ':', d, e] := rfl

/-- `convert_to_mm_ss_format` passes `d:dd` tokens through unchanged. -/
theorem convert_colon4 (a d e : Char) :
    convert_to_mm_ss_format [a, ':', d, e] = [a, ':', d, e] := by
  simp [convert_to_mm_ss_format, bareDecimalVal,
    (by decide : (':' : Char).isDigit = false)]

/-- `convert_to_mm_ss_format` on a two-integer-digit bare-decimal token. -/
theorem convert_dot4 (a b c : Char) (ha : a.isDigit = true)
    (hb : b.isDigit = true) (hc : c.isDigit = true) :
    convert_to_mm_ss_format [a, b, '.', c] =
      pad2 (((dv a * 10 + dv b) * 10 + dv c) / 600) ++ ':' ::
        pad2 ((((dv a * 10 + dv b) * 10 + dv c) % 600) / 10) := by
  simp [convert_to_mm_ss_format, bareDecimalVal, ha, hb, hc]

/-- `convert_to_mm_ss_format` on a one-integer-digit bare-decimal token. -/
theorem convert_dot3 (a c : Char) (ha : a.isDigit = true) (hc : c.isDigit = true) :
    convert_to_mm_ss_format [a, '.', c] =
      pad2 ((dv a * 10 + dv c) / 600) ++ ':' ::
        pad2 (((dv a * 10 + dv c) % 600) / 10) := by
  simp [convert_to_mm_ss_format, bareDecimalVal, ha, hc]

/-- Every token the regex search returns, once normalized, parses as a
clock value. -/
theorem convert_tok_ok {s tok : List Char} (h : tryTimeAt s = some tok) :
    (parseClock (convert_to_mm_ss_format tok)).isSome = true := by
  unfold tryTimeAt at h
  cases h1 : altColon2 s with
  | some t =>
    rw [h1] at h; cases h
    obtain ⟨a, b, d, e, ha, hb, hd, he, rfl⟩ := altColon2_eq h1
    rw [convert_colon5, parseClock_shape5 a b d e ha hb hd he]
    rfl
  | none =>
    rw [h1] at h
    cases h2 : altColon1 s with
    | some t =>
      rw [h2] at h; cases h
      obtain ⟨a, d, e, ha, hd, he, rfl⟩ := altColon1_eq h2
      rw [convert_colon4, parseClock_shape4 a d e ha hd he]
      rfl
    | none =>
      rw [h2] at h
      cases h3 : altDot2 s with
      | some t =>
        rw [h3] at h; cases h
        obtain ⟨a, b, c, ha, hb, hc, rfl⟩ := altDot2_eq h3
        rw [convert_dot4 a b c ha hb hc]
        rw [parseClock_pad _ (by
          have := dv_le_nine ha
          have := dv_le_nine hb
          have := dv_le_nine hc
          omega)]
        rfl
      | none =>
        rw [h3] at h
        obtain ⟨a, c, ha, hc, rfl⟩ := altDot1_eq h
        rw [convert_dot3 a c ha hc]
        rw [parseClock_pad _ (by
          have := dv_le_nine ha
          have := dv_le_nine hc
          omega)]
        rfl

/-- Every token `findTime` extracts, once normalized, parses as a clock
value — so `add_time_to_duration` can never fail on its token argument. -/
theorem findTime_ok {l tok : List Char} (h : findTime l = some tok) :
    (parseClock (convert_to_mm_ss_format tok)).isSome = true := by
  induction l with
  | nil => cases h
  | cons c cs ih =>
    unfold findTime at h
    cases ht : tryTimeAt (c :: cs) with
    | some t => rw [ht] at h; cases h; exact convert_tok_ok ht
    | none => rw [ht] at h; exact ih h

/-! ## Further helper lemmas -/

/-- A bare-decimal token is worth at most 99.9 seconds (999 tenths). -/
theorem bareDecimalVal_le {t : List Char} {n : Nat}
    (h : bareDecimalVal t = some n) : n ≤ 999 := by
  unfold bareDecimalVal at h
  split at h
  next a p c =>
    split at h
    next hc =>
      simp only [Bool.and_eq_true, beq_iff_eq] at hc
      cases h
      have := dv_le_nine hc.1.1
      have := dv_le_nine hc.2
      omega
    next => cases h
  next a b p c =>
    split at h
    next hc =>
      simp only [Bool.and_eq_true, beq_iff_eq] at hc
      cases h
      have := dv_le_nine hc.1.1.1
      have := dv_le_nine hc.1.1.2
      have := dv_le_nine hc.2
      omega
    next => cases h
  next => cases h

/-- `finalize_matchup` never touches the open matchup itself. -/
theorem finalize_current (st : ParseState) :
    (finalize_matchup st).current = st.current := by
  unfold finalize_matchup
  split <;> rfl

/-- `finalize_matchup` never touches the clock string. -/
theorem finalize_last_time (st : ParseState) :
    (finalize_matchup st).last_time = st.last_time := by
  unfold finalize_matchup
  split <;> rfl

/-- `finalize_matchup` never touches the ghost rollover counter. -/
theorem finalize_rollovers (st : ParseState) :
    (finalize_matchup st).rollovers = st.rollovers := by
  unfold finalize_matchup
  split <;> rfl

/-- The clock string after a successful step comes from the time step. -/
theorem processLine_last_time (st : ParseState) (l : List Char) (st' : ParseState)
    (h : processLine st l = some st') :
    ∃ st1, timeStep st l = some st1 ∧ st'.last_time = st1.last_time := by
  cases hm : containsSub subMarker l with
  | false =>
    obtain ⟨st1, h1, rfl⟩ := processLine_no_marker st l st' hm h
    exact ⟨st1, h1, rfl⟩
  | true =>
    obtain ⟨st1, en, ex, h1, h2, rfl⟩ := processLine_marker st l st' hm h
    exact ⟨st1, h1, finalize_last_time st1⟩

/-- C3.  For every consecutive pair of parsed timestamps, the amount added to
the open matchup's duration by `add_time_to_duration` is exactly
`last - new`, with `720` added exactly when that difference is negative, and
the stored clock becomes the normalized new token. -/
theorem claim_C3_delta (tok : List Char) (st st' : ParseState) (L C : Nat)
    (hL : parseClock st.last_time = some L)
    (hC : parseClock (convert_to_mm_ss_format tok) = some C)
    (h : add_time_to_duration tok st = some st') :
    st'.current.matchup_duration = st.current.matchup_duration +
        (((L : Int) - (C : Int)) +
          (if ((L : Int) - (C : Int)) < 0 then 720 else 0)) ∧
      st'.last_time = convert_to_mm_ss_format tok := by
  obtain ⟨L', C', hL', hC', rfl⟩ := add_time_eq tok st st' h
  rw [hL] at hL'
  rw [hC] at hC'
  injection hL' with hLL
  injection hC' with hCC
  subst hLL
  subst hCC
  refine ⟨?_, rfl⟩
  dsimp only
  by_cases hd : (L : Int) - (C : Int) < 0 <;> simp [hd]

/-- C7.  Normalizing a bare-decimal token worth `n` tenths of a second
produces the zero-padded `mm:ss` string with `minutes = ⌊(n/10)/60⌋` and
`seconds = ⌊(n/10) mod 60⌋` (truncation, not rounding), and that string
parses back to exactly `⌊n/10⌋` seconds. -/
theorem claim_C7_normalize (t : List Char) (n : Nat)
    (h : bareDecimalVal t = some n) :
    convert_to_mm_ss_format t =
        pad2 (n / 600) ++ ':' :: pad2 ((n % 600) / 10) ∧
      parseClock (convert_to_mm_ss_format t) = some (n / 10) := by
  have h1 : convert_to_mm_ss_format t =
      pad2 (n / 600) ++ ':' :: pad2 ((n % 600) / 10) := by
    unfold convert_to_mm_ss_format
    rw [h]
  exact ⟨h1, by rw [h1]; exact parseClock_pad n (bareDecimalVal_le h)⟩

/-- C8.  A substitution line whose exiting player is on neither roster leaves
both rosters of the newly opened matchup unchanged (silent no-op), and the
line is still recorded among the new matchup's events. -/
theorem claim_C8_noop (st st' : ParseState) (l en ex : List Char)
    (hm : containsSub subMarker l = true)
    (hn : subNames l = some (en, ex))
    (h1 : st.current.team1.contains ex = false)
    (h2 : st.current.team2.contains ex = false)
    (h : processLine st l = some st') :
    st'.current.team1 = st.current.team1 ∧
      st'.current.team2 = st.current.team2 ∧
      l ∈ st'.current.events := by
  obtain ⟨st1, en', ex', ht, hn', rfl⟩ := processLine_marker st l st' hm h
  rw [hn] at hn'
  injection hn' with hpair
  have hen : en' = en := congrArg Prod.fst hpair.symm
  have hex : ex' = ex := congrArg Prod.snd hpair.symm
  subst hen
  subst hex
  obtain ⟨-, -, -, htm1, htm2⟩ := timeStep_frame st st1 l ht
  rw [finalize_current st1] at *
  unfold subUpdate
  rw [htm1, htm2, h1, h2]
  simp

/-- `add_time_to_duration` succeeds whenever both clock strings parse. -/
theorem add_time_total (tok : List Char) (st : ParseState)
    (h1 : (parseClock st.last_time).isSome = true)
    (h2 : (parseClock (convert_to_mm_ss_format tok)).isSome = true) :
    (add_time_to_duration tok st).isSome = true := by
  obtain ⟨L, hL⟩ := Option.isSome_iff_exists.mp h1
  obtain ⟨C, hC⟩ := Option.isSome_iff_exists.mp h2
  unfold add_time_to_duration
  simp [hL, hC]

/-- One step both succeeds and keeps the clock string parseable, given a
well-formed substitution line (when the line is one). -/
theorem processLine_WF (st : ParseState) (l : List Char)
    (hWF : (parseClock st.last_time).isSome = true)
    (hsub : containsSub subMarker l = true → (subNames l).isSome = true) :
    ∃ st', processLine st l = some st' ∧
      (parseClock st'.last_time).isSome = true := by
  have htot : ∃ st1, timeStep st l = some st1 ∧
      (parseClock st1.last_time).isSome = true := by
    unfold timeStep
    cases hf : findTime l with
    | none => exact ⟨st, rfl, hWF⟩
    | some tok =>
      have h2 := findTime_ok hf
      have h3 := add_time_total tok st hWF h2
      obtain ⟨st1, h4⟩ := Option.isSome_iff_exists.mp h3
      obtain ⟨L, C, hL, hC, rfl⟩ := add_time_eq tok st st1 h4
      exact ⟨_, h4, by simp [hC]⟩
  obtain ⟨st1, h1, hWF1⟩ := htot
  obtain ⟨st', h'⟩ := processLine_some st st1 l h1 hsub
  obtain ⟨st1', h1', hlast⟩ := processLine_last_time st l st' h'
  rw [h1] at h1'
  injection h1' with he
  subst he
  exact ⟨st', h', by rw [hlast]; exact hWF1⟩

/-- C4 (amended).  `parse_play_by_play` raises no exception as long as every
substitution line is shaped well enough for the name extraction — i.e. the
spaced marker `" enters the game for "` occurs and the text before it
contains `" - "`.  (The original claim — no failure for arbitrary marker
lines — is refuted by `claim_C4_counterexample`.) -/
theorem claim_C4_no_failure (input : List Char)
    (hws : ∀ l ∈ linesOf input,
      containsSub subMarker l = true → (subNames l).isSome = true) :
    (parse_play_by_play input).isSome = true := by
  have h0 : (parseClock st0.last_time).isSome = true := by decide
  obtain ⟨stF, hF, -⟩ := runLines_total
    (fun s => (parseClock s.last_time).isSome = true)
    (linesOf input) st0
    (fun s l hl hP => processLine_WF s l hP (hws l hl))
    h0
  unfold parse_play_by_play runParse
  rw [hF]
  rfl

/-- The roster update preserves the size of both sides. -/
theorem subUpdate_length (en ex : List Char) (t1 t2 : List (List Char)) :
    (subUpdate en ex t1 t2).1.length = t1.length ∧
      (subUpdate en ex t1 t2).2.length = t2.length := by
  unfold subUpdate
  split
  next hc =>
    unfold List.contains at hc
    have hm : ex ∈ t1 := List.elem_iff.mp hc
    have h1 := List.length_erase_of_mem hm
    have h2 := List.length_pos_of_mem hm
    constructor
    · simp only [List.length_append, h1, List.length_cons, List.length_nil]
      omega
    · rfl
  next =>
    split
    next hc =>
      unfold List.contains at hc
      have hm : ex ∈ t2 := List.elem_iff.mp hc
      have h1 := List.length_erase_of_mem hm
      have h2 := List.length_pos_of_mem hm
      constructor
      · rfl
      · simp only [List.length_append, h1, List.length_cons, List.length_nil]
        omega
    next => exact ⟨rfl, rfl⟩

/-- One step preserves the roster-size invariant. -/
theorem processLine_inv5 (s : ParseState) (l : List Char) (s' : ParseState)
    (hI : Inv5 s) (h : processLine s l = some s') : Inv5 s' := by
  obtain ⟨hall, h1, h2⟩ := hI
  have hts : ∀ st1, timeStep s l = some st1 → Inv5 st1 := by
    intro st1 ht
    obtain ⟨hm, -, -, ht1, ht2⟩ := timeStep_frame s st1 l ht
    exact ⟨hm ▸ hall, ht1 ▸ h1, ht2 ▸ h2⟩
  cases hm : containsSub subMarker l with
  | false =>
    obtain ⟨st1, ht, rfl⟩ := processLine_no_marker s l s' hm h
    obtain ⟨hall1, hA, hB⟩ := hts st1 ht
    exact ⟨hall1, hA, hB⟩
  | true =>
    obtain ⟨st1, en, ex, ht, hn, rfl⟩ := processLine_marker s l s' hm h
    obtain ⟨hall1, hA, hB⟩ := hts st1 ht
    rw [finalize_current st1]
    have hu := subUpdate_length en ex st1.current.team1 st1.current.team2
    refine ⟨?_, by rw [hu.1]; exact hA, by rw [hu.2]; exact hB⟩
    intro m hmem
    by_cases hnil : st1.current.events = []
    · rw [finalize_of_nil st1 hnil] at hmem
      exact hall1 m hmem
    · rw [finalize_of_ne st1 hnil] at hmem
      simp only [List.mem_append, List.mem_singleton] at hmem
      rcases hmem with hmem | rfl
      · exact hall1 m hmem
      · exact ⟨hA, hB⟩

/-- C5 (amended).  Starting from the five-player lineups, every emitted
matchup's roster snapshot has exactly five names per side.  (The
distinctness half of the original claim is refuted by
`claim_C5_counterexample`: an entering player already on the side creates a
duplicate.) -/
theorem claim_C5_roster_size (input : List Char) (ms : List Matchup)
    (h : parse_play_by_play input = some ms) :
    ∀ m ∈ ms, m.team1.length = 5 ∧ m.team2.length = 5 := by
  unfold parse_play_by_play runParse at h
  cases hr : runLines st0 (linesOf input) with
  | none => rw [hr] at h; cases h
  | some stF =>
    rw [hr] at h
    simp only [Option.map_some', Option.some.injEq] at h
    subst h
    have hF : Inv5 stF := runLines_inv Inv5 (linesOf input) st0 stF
      (fun s l _ hP s' hs => processLine_inv5 s l s' hP hs)
      ⟨by decide, by decide, by decide⟩ hr
    obtain ⟨hall, hA, hB⟩ := hF
    intro m hmem
    by_cases hnil : stF.current.events = []
    · rw [finalize_of_nil stF hnil] at hmem
      exact hall m hmem
    · rw [finalize_of_ne stF hnil] at hmem
      simp only [List.mem_append, List.mem_singleton] at hmem
      rcases hmem with hmem | rfl
      · exact hall m hmem
      · exact ⟨hA, hB⟩

/-- A step from a state whose open matchup has no events: the output list is
untouched and the ghost discard counter increments exactly on a
substitution line. -/
theorem processLine_from_nil (s : ParseState) (l : List Char) (s' : ParseState)
    (he : s.current.events = []) (h : processLine s l = some s') :
    s'.matchups = s.matchups ∧
      s'.discarded = s.discarded + (if containsSub subMarker l then 1 else 0) := by
  cases hm : containsSub subMarker l with
  | false =>
    obtain ⟨st1, h1, rfl⟩ := processLine_no_marker s l s' hm h
    obtain ⟨hma, hd, -, -, -⟩ := timeStep_frame s st1 l h1
    simp [hma, hd]
  | true =>
    obtain ⟨st1, en, ex, h1, h2, rfl⟩ := processLine_marker s l s' hm h
    obtain ⟨hma, hd, hev, -, -⟩ := timeStep_frame s st1 l h1
    have hnil : st1.current.events = [] := by rw [hev]; exact he
    rw [finalize_of_nil st1 hnil]
    simp [hma, hd]

/-- A step from a state whose open matchup has events preserves the
nonempty-events property everywhere and never discards. -/
theorem processLine_keep_nonempty (s : ParseState) (l : List Char)
    (s' : ParseState) (hcur : ¬ s.current.events = [])
    (hall : ∀ m ∈ s.matchups, ¬ m.events = [])
    (h : processLine s l = some s') :
    (∀ m ∈ s'.matchups, ¬ m.events = []) ∧ ¬ s'.current.events = [] ∧
      s'.discarded = s.discarded := by
  have hne := processLine_events_ne s l s' h
  cases hm : containsSub subMarker l with
  | false =>
    obtain ⟨st1, h1, rfl⟩ := processLine_no_marker s l s' hm h
    obtain ⟨hma, hd, hev, -, -⟩ := timeStep_frame s st1 l h1
    refine ⟨?_, hne, hd⟩
    intro m hm2
    dsimp only at hm2
    rw [hma] at hm2
    exact hall m hm2
  | true =>
    obtain ⟨st1, en, ex, h1, h2, rfl⟩ := processLine_marker s l s' hm h
    obtain ⟨hma, hd, hev, -, -⟩ := timeStep_frame s st1 l h1
    have hne1 : ¬ st1.current.events = [] := by rw [hev]; exact hcur
    refine ⟨?_, hne, ?_⟩
    · intro m hm2
      dsimp only at hm2
      rw [finalize_of_ne st1 hne1] at hm2
      dsimp only at hm2
      rcases List.mem_append.mp hm2 with hmem | hmem
      · rw [hma] at hmem
        exact hall m hmem
      · rw [List.mem_singleton] at hmem
        subst hmem
        exact hne1
    · dsimp only
      rw [finalize_of_ne st1 hne1]
      exact hd

/-- C6 (amended).  No emitted matchup has an empty events list, and the run
discards a zero-event matchup exactly when the very first line is a
substitution line (one discard then, none otherwise).  In particular the
empty-input case discards nothing — it emits one matchup whose single event
is the empty string — contrary to the original claim, which tied the discard
to the empty-input case (refuted by `claim_C6_counterexample`). -/
theorem claim_C6_no_empty_events (input : List Char) (st : ParseState)
    (h : runParse input = some st) :
    (∀ m ∈ st.matchups, ¬ m.events = []) ∧
      st.discarded =
        (if containsSub subMarker ((linesOf input).headD []) then 1 else 0) := by
  unfold runParse at h
  cases hr : runLines st0 (linesOf input) with
  | none => rw [hr] at h; cases h
  | some stF =>
    rw [hr] at h
    injection h with h
    subst h
    obtain ⟨l, rest, hlr⟩ : ∃ l rest, linesOf input = l :: rest := by
      cases hl : linesOf input with
      | nil => exact absurd hl (splitOnL_ne_nil _ _)
      | cons a b => exact ⟨a, b, rfl⟩
    rw [hlr] at hr
    unfold runLines at hr
    cases h1 : processLine st0 l with
    | none => rw [h1] at hr; cases hr
    | some s1 =>
      rw [h1] at hr
      have hfn := processLine_from_nil st0 l s1 rfl h1
      have hne1 := processLine_events_ne st0 l s1 h1
      have hP : (∀ m ∈ stF.matchups, ¬ m.events = []) ∧
          ¬ stF.current.events = [] ∧ stF.discarded = s1.discarded := by
        refine runLines_inv
          (fun s => (∀ m ∈ s.matchups, ¬ m.events = []) ∧
            ¬ s.current.events = [] ∧ s.discarded = s1.discarded)
          rest s1 stF ?_ ⟨?_, hne1, rfl⟩ hr
        · intro s l2 _ hPs s' hs
          obtain ⟨ha, hb, hc⟩ := hPs
          obtain ⟨h1', h2', h3'⟩ := processLine_keep_nonempty s l2 s' hb ha hs
          exact ⟨h1', h2', h3'.trans hc⟩
        · rw [hfn.1]
          intro m hm2
          exact absurd hm2 (List.not_mem_nil m)
      obtain ⟨hall, hcur, hdisc⟩ := hP
      constructor
      · intro m hm2
        rw [finalize_of_ne stF hcur] at hm2
        dsimp only at hm2
        rcases List.mem_append.mp hm2 with hmem | hmem
        · exact hall m hmem
        · rw [List.mem_singleton] at hmem
          subst hmem
          exact hcur
      · rw [finalize_of_ne stF hcur]
        dsimp only
        rw [hdisc, hfn.2, hlr]
        simp [st0]

/-- C1 (amended).  A substitution line is seeded as the new matchup's first
event and then appended again by the unconditional event-accumulation step,
so the matchup it opens begins with the line twice and duration `0`; two
consecutive substitution lines with no time token on the second line emit
that matchup as-is: a two-event list (the first substitution line twice)
with `duration_seconds = 0`.  (The original "appears exactly once /
single-line events list" is refuted by `claim_C1_counterexample`.) -/
theorem claim_C1_sub_line_twice (st st1 st2 : ParseState) (l1 l2 : List Char)
    (hm1 : containsSub subMarker l1 = true)
    (hm2 : containsSub subMarker l2 = true)
    (hf2 : findTime l2 = none)
    (h1 : processLine st l1 = some st1)
    (h2 : processLine st1 l2 = some st2) :
    st1.current.events = [l1, l1] ∧ st1.current.matchup_duration = 0 ∧
      st2.matchups = st1.matchups ++ [st1.current] := by
  obtain ⟨sa, en, ex, hta, hna, rfl⟩ := processLine_marker st l1 st1 hm1 h1
  refine ⟨rfl, rfl, ?_⟩
  obtain ⟨sb, en2, ex2, htb, hnb, rfl⟩ := processLine_marker _ l2 st2 hm2 h2
  unfold timeStep at htb
  rw [hf2] at htb
  injection htb with he
  subst he
  rw [finalize_of_ne _ (by dsimp only; simp)]

/-- Appending one emitted matchup adds its duration to the total. -/
theorem sumDur_append (ms : List Matchup) (m : Matchup) :
    sumDur (ms ++ [m]) = sumDur ms + m.matchup_duration := by
  simp [sumDur]

/-- The time step preserves the duration-accounting invariant on a line
whose time token (if any) is within one period. -/
theorem timeStep_inv9 (s st1 : ParseState) (l : List Char)
    (hb : timeBounded l = true) (hI : Inv9 s) (h : timeStep s l = some st1) :
    Inv9 st1 := by
  unfold timeStep at h
  cases hf : findTime l with
  | none =>
    rw [hf] at h
    injection h with h
    subst h
    exact hI
  | some tok =>
    rw [hf] at h
    obtain ⟨L, C, hL, hC, rfl⟩ := add_time_eq tok s st1 h
    obtain ⟨hpos, L', hL', hle, hsum⟩ := hI
    rw [hL] at hL'
    injection hL' with he
    subst he
    have hCle : C ≤ 720 := by
      unfold timeBounded at hb
      simp only [hf, hC] at hb
      exact of_decide_eq_true hb
    constructor
    · dsimp only
      by_cases hd : (L : Int) - (C : Int) < 0
      · rw [if_pos hd]; omega
      · rw [if_neg hd]; omega
    · refine ⟨C, hC, hCle, ?_⟩
      dsimp only
      by_cases hd : (L : Int) - (C : Int) < 0
      · rw [if_pos hd, if_pos hd]
        push_cast
        omega
      · rw [if_neg hd, if_neg hd]
        push_cast
        omega

/-- One full step preserves the duration-accounting invariant. -/
theorem processLine_inv9 (s : ParseState) (l : List Char) (s' : ParseState)
    (hb : timeBounded l = true) (hI : Inv9 s) (h : processLine s l = some s') :
    Inv9 s' := by
  cases hm : containsSub subMarker l with
  | false =>
    obtain ⟨st1, h1, rfl⟩ := processLine_no_marker s l s' hm h
    obtain ⟨hpos, L, hL, hle, hsum⟩ := timeStep_inv9 s st1 l hb hI h1
    exact ⟨hpos, L, hL, hle, hsum⟩
  | true =>
    obtain ⟨st1, en, ex, h1, hn, rfl⟩ := processLine_marker s l s' hm h
    obtain ⟨hpos, L, hL, hle, hsum⟩ := timeStep_inv9 s st1 l hb hI h1
    by_cases hnil : st1.current.events = []
    · rw [finalize_of_nil st1 hnil]
      refine ⟨by dsimp only; omega, L, hL, hle, ?_⟩
      dsimp only
      omega
    · rw [finalize_of_ne st1 hnil]
      refine ⟨by dsimp only; omega, L, hL, hle, ?_⟩
      dsimp only
      rw [sumDur_append]
      omega

/-- C9.  Over every input whose time tokens stay within a 12-minute period
clock, the summed `duration_seconds` of the emitted matchups is at most
`720` times the number of periods represented (the first period plus one per
observed period-boundary rollover). -/
theorem claim_C9_duration_bound (input : List Char) (st : ParseState)
    (h : runParse input = some st)
    (hb : ∀ l ∈ linesOf input, timeBounded l = true) :
    sumDur st.matchups ≤ 720 * ((periodsRepresented st : Nat) : Int) := by
  unfold runParse at h
  cases hr : runLines st0 (linesOf input) with
  | none => rw [hr] at h; cases h
  | some stF =>
    rw [hr] at h
    injection h with h
    subst h
    have hI : Inv9 stF := runLines_inv Inv9 (linesOf input) st0 stF
      (fun s l hl hP s' hs => processLine_inv9 s l s' (hb l hl) hP hs)
      ⟨by decide, 720, by decide, by decide, by decide⟩ hr
    obtain ⟨hpos, L, hL, hle, hsum⟩ := hI
    unfold periodsRepresented
    by_cases hnil : stF.current.events = []
    · rw [finalize_of_nil stF hnil]
      dsimp only
      push_cast
      omega
    · rw [finalize_of_ne stF hnil]
      dsimp only
      rw [sumDur_append]
      push_cast
      omega

set_option maxRecDepth 1000000 in
/-- C10 (amended).  Whenever `parse_play_by_play` returns (raises no
exception), it returns at least one matchup — the stripped input splits into
at least one line and every line is appended as an event before the final
finalization — and the empty input produces exactly one matchup whose events
list is a single empty string, with duration `0` and the starting rosters.
(The unconditional "returns" of the original claim is refuted by
`claim_C10_counterexample`.) -/
theorem claim_C10_nonempty_output :
    (∀ input ms, parse_play_by_play input = some ms → 1 ≤ ms.length) ∧
      parse_play_by_play (str "") = some [emptyInputMatchup] := by
  constructor
  · intro input ms h
    unfold parse_play_by_play runParse at h
    cases hr : runLines st0 (linesOf input) with
    | none => rw [hr] at h; cases h
    | some stF =>
      rw [hr] at h
      simp only [Option.map_some', Option.some.injEq] at h
      subst h
      have hne : ¬ stF.current.events = [] := by
        obtain ⟨l, rest, hlr⟩ : ∃ l rest, linesOf input = l :: rest := by
          cases hl : linesOf input with
          | nil => exact absurd hl (splitOnL_ne_nil _ _)
          | cons a b => exact ⟨a, b, rfl⟩
        rw [hlr] at hr
        exact runLines_events_ne (l :: rest) st0 stF (by simp) hr
      rw [finalize_of_ne stF hne]
      simp
  · decide

set_option maxRecDepth 1000000 in
/-- C2.  The end-to-end scenario: exactly two matchups; the first lasts 165
seconds with exactly two events; the second contains the substitution line
and the final scoring line among its events, its `team1` contains
"Luka Doncic" and no longer "Kyrie Irving", and its `team2` is unchanged. -/
theorem claim_C2_scenario :
    parse_play_by_play scenarioInput = some [scenario_m1, scenario_m2] ∧
      scenario_m1.matchup_duration = 165 ∧
      scenario_m1.events.length = 2 ∧
      str "9:15 - Luka Doncic enters the game for Kyrie Irving" ∈ scenario_m2.events ∧
      str "8:00 - Jayson Tatum makes 2-pt shot" ∈ scenario_m2.events ∧
      str "Luka Doncic" ∈ scenario_m2.team1 ∧
      ¬ str "Kyrie Irving" ∈ scenario_m2.team1 ∧
      scenario_m2.team2 = team2_lineup := by
  refine ⟨?_, by decide, by decide, by decide, by decide, by decide, by decide, by decide⟩
  decide

set_option maxRecDepth 1000000 in
/-- C1 counterexample: on a single-substitution-line input the substitution
line appears twice (not once) in the events lists of the output. -/
theorem claim_C1_counterexample :
    (parse_play_by_play subOnlyInput).map
      (fun ms => ms.map (fun m => m.events.count subOnlyInput)) = some [2] := by
  decide

set_option maxRecDepth 1000000 in
/-- C4 counterexample: a marker line with no `" - "` before the marker makes
`parse_play_by_play` fail (Python: `IndexError` from `split(" - ")[1]`). -/
theorem claim_C4_counterexample :
    parse_play_by_play (str "X enters the game for Y") = none := by
  decide

set_option maxRecDepth 1000000 in
/-- C5 counterexample: a substitution whose entering player is already on
the side leaves that side with a duplicated name. -/
theorem claim_C5_counterexample :
    (parse_play_by_play subOnlyInput).map
      (fun ms => ms.map (fun m => m.team1.count (str "Luka Doncic"))) =
      some [2] := by
  decide

set_option maxRecDepth 1000000 in
/-- C6 counterexample: the zero-event discard does not happen on the empty
input (which emits one matchup with a single empty-string event) and does
happen on a nonempty input whose first line is a substitution. -/
theorem claim_C6_counterexample :
    discardsOf (str "") = some 0 ∧ discardsOf subOnlyInput = some 1 ∧
      ¬ subOnlyInput = str "" := by
  refine ⟨by decide, by decide, by decide⟩

set_option maxRecDepth 1000000 in
/-- C10 counterexample: `parse_play_by_play` does not return on every input
string — a malformed substitution line makes it raise instead. -/
theorem claim_C10_counterexample :
    parse_play_by_play (str "Q enters the game for R") = none := by
  decide

set_option maxRecDepth 1000000 in
/-- Witness for C1 at concrete inputs. -/
theorem claim_C1_witness :
    c1w_st1.current.events = [c1w_l1, c1w_l1] ∧
      c1w_st1.current.matchup_duration = 0 ∧
      c1w_st2.matchups = c1w_st1.matchups ++ [c1w_st1.current] :=
  claim_C1_sub_line_twice st0 c1w_st1 c1w_st2 c1w_l1 c1w_l2
    (by decide) (by decide) (by decide) (by decide) (by decide)

set_option maxRecDepth 1000000 in
/-- Witness for C3: `"0:05"` then `"11:58"` adds exactly `7` seconds. -/
theorem claim_C3_witness :
    c3w_st1.current.matchup_duration = c3w_st0.current.matchup_duration +
        (((5 : Int) - (718 : Int)) +
          (if ((5 : Int) - (718 : Int)) < 0 then 720 else 0)) ∧
      c3w_st1.last_time = convert_to_mm_ss_format (str "11:58") :=
  claim_C3_delta (str "11:58") c3w_st0 c3w_st1 5 718
    (by decide) (by decide) (by decide)

set_option maxRecDepth 1000000 in
/-- Witness for C4 on a well-formed substitution line. -/
theorem claim_C4_witness :
    (parse_play_by_play
      (str "12:00 - Alice enters the game for Bob")).isSome = true :=
  claim_C4_no_failure _ (by decide)

set_option maxRecDepth 1000000 in
/-- Witness for C5 on the empty input's single matchup. -/
theorem claim_C5_witness :
    emptyInputMatchup.team1.length = 5 ∧ emptyInputMatchup.team2.length = 5 :=
  claim_C5_roster_size (str "") [emptyInputMatchup] (by decide)
    emptyInputMatchup (List.mem_singleton.mpr rfl)

set_option maxRecDepth 1000000 in
/-- Witness for C6 on the single non-substitution line `"hello"`. -/
theorem claim_C6_witness :
    c6w_st.discarded =
      (if containsSub subMarker ((linesOf (str "hello")).headD [])
       then 1 else 0) :=
  (claim_C6_no_empty_events (str "hello") c6w_st (by decide)).2

set_option maxRecDepth 1000000 in
/-- Witness for C7: `"4.7"` normalizes to `"00:04"` (truncation). -/
theorem claim_C7_witness :
    convert_to_mm_ss_format (str "4.7") = str "00:04" ∧
      parseClock (convert_to_mm_ss_format (str "4.7")) = some 4 := by
  have h := claim_C7_normalize (str "4.7") 47 (by decide)
  exact ⟨h.1.trans (by decide), h.2.trans (by decide)⟩

set_option maxRecDepth 1000000 in
/-- Witness for C8: exiting player `"Nobody"` is on neither roster. -/
theorem claim_C8_witness :
    c8w_st.current.team1 = st0.current.team1 ∧
      c8w_st.current.team2 = st0.current.team2 ∧
      c8w_l ∈ c8w_st.current.events :=
  claim_C8_noop st0 c8w_st c8w_l (str "Bob Smith") (str "Nobody")
    (by decide) (by decide) (by decide) (by decide) (by decide)

set_option maxRecDepth 1000000 in
/-- Witness for C9 on a two-line input crossing one period boundary. -/
theorem claim_C9_witness :
    sumDur c9w_st.matchups ≤ 720 * ((periodsRepresented c9w_st : Nat) : Int) :=
  claim_C9_duration_bound c9w_input c9w_st (by decide) (by decide)

set_option maxRecDepth 1000000 in
/-- Witness for C10 on the one-line input `"x"`. -/
theorem claim_C10_witness : 1 ≤ c10w_ms.length :=
  claim_C10_nonempty_output.1 (str "x") c10w_ms (by decide)
